import Mathlib

/-!
Shallow embedding of the rate-blending and cost-computation engine of the
energy cost-comparison application (the Streamlit pages under `src/pages/`).

Dates are triples of numerals, rates and volumes are rationals, a pandas
Timestamp comparison is the lexicographic comparison of (year, month, day),
and `ts + pd.DateOffset(months = n)` is calendar-month addition with the
day-of-month clamped to the length of the target month.
-/

/-- A calendar date (year, month, day): the date part of a pandas Timestamp. -/
structure Date where
  y : Nat
  m : Nat
  d : Nat
deriving DecidableEq, Repr

/-- Timestamp `<=`: lexicographic on (year, month, day). -/
def Date.leB (a b : Date) : Bool :=
  decide (a.y < b.y) ||
    (decide (a.y = b.y) &&
      (decide (a.m < b.m) || (decide (a.m = b.m) && decide (a.d ≤ b.d))))

/-- Timestamp `<`: lexicographic on (year, month, day). -/
def Date.ltB (a b : Date) : Bool :=
  decide (a.y < b.y) ||
    (decide (a.y = b.y) &&
      (decide (a.m < b.m) || (decide (a.m = b.m) && decide (a.d < b.d))))

/-- Gregorian leap-year rule (as used by pandas timestamps). -/
def isLeapYear (y : Nat) : Bool :=
  (y % 4 == 0 && y % 100 != 0) || y % 400 == 0

/-- Number of days of month `m` of year `y`. -/
def daysInMonth (y m : Nat) : Nat :=
  if m = 2 then (if isLeapYear y then 29 else 28)
  else if m = 4 ∨ m = 6 ∨ m = 9 ∨ m = 11 then 30
  else 31

/-- The index of a month on the unbounded month axis: `y * 12 + (m - 1)`. -/
def Date.monthIdx (dt : Date) : Nat := dt.y * 12 + (dt.m - 1)

/-- `ts + pd.DateOffset(months := n)`: calendar-month arithmetic.  The
day-of-month is preserved where valid and clamped to the end of the target
month otherwise (pandas: 2023-01-31 + 1 month = 2023-02-28). -/
def Date.addMonths (dt : Date) (n : Nat) : Date :=
  let k := dt.monthIdx + n
  let y := k / 12
  let m := k % 12 + 1
  ⟨y, m, min dt.d (daysInMonth y m)⟩

/-- A well-formed calendar date: month in 1..12 and day within the month. -/
def Date.Valid (dt : Date) : Prop :=
  1 ≤ dt.m ∧ dt.m ≤ 12 ∧ 1 ≤ dt.d ∧ dt.d ≤ daysInMonth dt.y dt.m

/-- The first calendar day of the month with month index `k`
(`pd.Period.start_time` of the period with that index). -/
def firstOfKey (k : Nat) : Date := ⟨k / 12, k % 12 + 1, 1⟩

/-- The state of the Volumetric Hedge widgets shared by every page:
`use_hedge` is the checkbox, and the remaining fields keep the values the
post-submit logic reads (`hedge_start_date_input = none` models the Python
`None` left when the hedge section was never opened). -/
structure HedgeInput where
  use_hedge : Bool
  hedge_start_date_input : Option Date
  hedge_term_months : Nat
  hedge_portion_percent : ℚ
  hedge_fixed_rate : ℚ

/-- `hedge_start_ts` of the post-submit logic: set only when
`use_hedge and hedge_start_date_input`, otherwise `None`. -/
def hedge_start_ts (h : HedgeInput) : Option Date :=
  if h.use_hedge then h.hedge_start_date_input else none

/-- `hedge_end_ts = hedge_start_ts + pd.DateOffset(months=int(hedge_term_months))`,
set under the same guard as `hedge_start_ts`. -/
def hedge_end_ts (h : HedgeInput) : Option Date :=
  if h.use_hedge then
    h.hedge_start_date_input.map (fun s => s.addMonths h.hedge_term_months)
  else none

/-- The guard `use_hedge and hedge_start_ts and (hedge_start_ts <=
month_datetime < hedge_end_ts)` deciding whether an aggregated month is
costed with the hedge split (identical in every page). -/
def monthIsHedged (h : HedgeInput) (month_datetime : Date) : Bool :=
  h.use_hedge &&
    match hedge_start_ts h, hedge_end_ts h with
    | some s, some e => s.leB month_datetime && month_datetime.ltB e
    | _, _ => false

/-- The hedge-window predicate in the words of the spec (section 4.3):
true iff the hedge is enabled and
`start ≤ month_start_date < start + term_months` in calendar months. -/
def in_hedge_window (month_start_date : Date) (enabled : Bool) (start : Date)
    (term_months : Nat) : Prop :=
  enabled = true ∧ start.leB month_start_date = true ∧
    month_start_date.ltB (start.addMonths term_months) = true

/-- Client cost of one aggregated month in `new_business_ab_gas.main`
(step 9, lines 181-189): when the month is hedged the hedged volume is
costed at `hedge_fixed_rate + admin_fee` and the floating volume at
`whl_rate + admin_fee`; otherwise the full volume at `whl_rate + admin_fee`. -/
def abGas_cost_client (h : HedgeInput) (admin_fee : ℚ) (month_datetime : Date)
    (month_consumption whl_rate : ℚ) : ℚ :=
  if monthIsHedged h month_datetime then
    let hedged_volume := month_consumption * (h.hedge_portion_percent / 100)
    let floating_volume := month_consumption - hedged_volume
    let cost_hedged := hedged_volume * (h.hedge_fixed_rate + admin_fee)
    let cost_floating := floating_volume * (whl_rate + admin_fee)
    cost_hedged + cost_floating
  else
    month_consumption * (whl_rate + admin_fee)

/-- Client cost of one aggregated month in `new_business_on_gas.main`
(step 11, lines 171-180), in cents: same shape as the Alberta page, the
admin fee again added to the hedged portion. -/
def onGas_cost_client (h : HedgeInput) (admin_fee : ℚ) (month_datetime : Date)
    (month_consumption w_rate : ℚ) : ℚ :=
  if monthIsHedged h month_datetime then
    let hedged_volume := month_consumption * (h.hedge_portion_percent / 100)
    let floating_volume := month_consumption - hedged_volume
    let cost_hedged := hedged_volume * (h.hedge_fixed_rate + admin_fee)
    let cost_floating := floating_volume * (w_rate + admin_fee)
    cost_hedged + cost_floating
  else
    month_consumption * (w_rate + admin_fee)

/-- Client cost of one aggregated month in `canadian_new_business.main`
(step 10, lines 252-262): the hedged volume is costed at the fixed rate with
no admin fee, the floating volume at `whl_rate + admin_fee`. -/
def canadian_cost_client (hedged : Bool)
    (month_consumption whl_rate admin_fee hedge_portion_percent
      hedge_fixed_rate : ℚ) : ℚ :=
  if hedged then
    let hedged_volume := month_consumption * (hedge_portion_percent / 100)
    let floating_volume := month_consumption - hedged_volume
    let cost_hedged := hedged_volume * hedge_fixed_rate
    let cost_floating := floating_volume * (whl_rate + admin_fee)
    cost_hedged + cost_floating
  else
    month_consumption * (whl_rate + admin_fee)

/-- Client cost of one aggregated month in `new_business_qc_gas.main`
(step 14, lines 249-264): rates are cents per cubic metre, each partial cost
is divided by 100 into dollars, the hedged volume carries no admin fee. -/
def qc_cost_client (hedged : Bool)
    (usage_val wholesale_rate admin_fee hedge_portion_percent
      hedge_fixed_rate : ℚ) : ℚ :=
  if hedged then
    let hedged_volume := usage_val * (hedge_portion_percent / 100)
    let floating_volume := usage_val - hedged_volume
    let cost_hedged := (hedged_volume * hedge_fixed_rate) / 100
    let cost_floating := (floating_volume * (wholesale_rate + admin_fee)) / 100
    cost_hedged + cost_floating
  else
    (usage_val * (wholesale_rate + admin_fee)) / 100

/-- `cost_in_cad` of `current_client.main` (lines 299-311): Alberta gas is
dollars per GJ, Alberta electricity cents per kWh, Ontario gas cents per
cubic metre; `none` models the `st.error` + `st.stop` fallthrough. -/
def cost_in_cad (usage_value rate_value : ℚ) (province commodity : String) :
    Option ℚ :=
  if province = "Alberta" ∧ commodity = "gas" then
    some (usage_value * rate_value)
  else if province = "Alberta" ∧ commodity = "electricity" then
    some (usage_value * (rate_value / 100))
  else if province = "Ontario" ∧ commodity = "gas" then
    some (usage_value * (rate_value / 100))
  else none

/-- The jurisdiction/commodity pairs whose source rates are in minor
currency (cents), per the unit comments inside `cost_in_cad`. -/
def minorUnit (province commodity : String) : Bool :=
  (province == "Alberta" && commodity == "electricity") ||
    (province == "Ontario" && commodity == "gas")

/-- Scale the one rate-denominated hedge field by `k` (the hedge window
fields are dates and a percentage, not rates). -/
def scaleHedgeRate (k : ℚ) (h : HedgeInput) : HedgeInput :=
  { h with hedge_fixed_rate := k * h.hedge_fixed_rate }

/-- One iteration of the `current_client.main` cost loop (lines 316-347):
the utility cost and the client cost of one aggregated month, both routed
through `cost_in_cad` for the chosen province and commodity. -/
def currentClient_month_costs (chosen_province chosen_commodity : String)
    (h : HedgeInput) (final_admin_fee : ℚ) (month_dt : Date)
    (usage_val w_rate u_rate : ℚ) : Option (ℚ × ℚ) := do
  let util_cost ← cost_in_cad usage_val u_rate chosen_province chosen_commodity
  let c_cost ←
    if monthIsHedged h month_dt then do
      let hedged_vol := usage_val * (h.hedge_portion_percent / 100)
      let floating_vol := usage_val - hedged_vol
      let cost_hedged ←
        cost_in_cad hedged_vol h.hedge_fixed_rate chosen_province chosen_commodity
      let cost_floating ←
        cost_in_cad floating_vol (w_rate + final_admin_fee) chosen_province
          chosen_commodity
      pure (cost_hedged + cost_floating)
    else
      cost_in_cad usage_val (w_rate + final_admin_fee) chosen_province
        chosen_commodity
  pure (util_cost, c_cost)

/-- A row of a historical-rates table as `current_client` and
`canadian_new_business` read it, with the columns of both the Alberta files
(`regulated_rate`) and the Ontario file (the two zone columns) present. -/
structure CCRateRow where
  date : Date
  wholesale_rate : ℚ
  regulated_rate : ℚ
  local_utility_rate_egd : ℚ
  local_utility_rate_usouth : ℚ

/-- The `utility_selected` choice of `current_client.main` (lines 267-279):
Alberta takes the regulated rate; otherwise (Ontario) a missing zone choice
is an error and the explicit choice picks the EGD or Union South column. -/
def currentClient_utility_selected (chosen_province : String)
    (local_utility_choice : Option String) (row : CCRateRow) :
    Except String ℚ :=
  if chosen_province = "Alberta" then .ok row.regulated_rate
  else
    match local_utility_choice with
    | none => .error "Ontario gas requires selecting EGD or Union South."
    | some choice =>
      if choice = "EGD" then .ok row.local_utility_rate_egd
      else .ok row.local_utility_rate_usouth

/-- The utility selection of `canadian_new_business.main` (lines 199-228):
Alberta takes the regulated rate; for Ontario a missing session-state zone
choice is first defaulted to `"EGD"`, then the radio prompt (shown only when
the hedge is off) overrides it, and the chosen zone picks the column.  The
`st.error("Local utility choice not set")` branch is unreachable. -/
def cnb_utility_selected (province : String) (session_choice : Option String)
    (use_hedge : Bool) (radio_choice : String) (row : CCRateRow) :
    Except String ℚ :=
  if province = "Alberta" then .ok row.regulated_rate
  else
    let local_utility_choice :=
      if use_hedge then session_choice.getD "EGD" else radio_choice
    if local_utility_choice = "EGD" then .ok row.local_utility_rate_egd
    else .ok row.local_utility_rate_usouth

/-- A row of `client_data_by_site.csv` (`current_client`, lines 52-57):
the twelve monthly consumption columns are indexed by `Fin 12`
(index 0 is January). -/
structure SiteRecord where
  client_name : String
  site_ID : String
  province : String
  commodity : String
  contract_start_date : Date
  client_admin_fee : ℚ
  month_cols : Fin 12 → ℚ

/-- The successive subset filters of `current_client.main` (lines 68, 77,
85): the site records matching one client, province and commodity. -/
def final_subset (client_df : List SiteRecord)
    (selected_client chosen_province chosen_commodity : String) :
    List SiteRecord :=
  ((client_df.filter (fun r => r.client_name == selected_client)).filter
      (fun r => r.province == chosen_province)).filter
    (fun r => r.commodity == chosen_commodity)

/-- `usage_sums = final_subset[month_cols].sum()` (line 112): the sum of one
monthly consumption column over the records. -/
def usage_sums (recs : List SiteRecord) (i : Fin 12) : ℚ :=
  (recs.map (fun r => r.month_cols i)).sum

/-- The smaller of two dates in Timestamp order. -/
def minDate (a b : Date) : Date := if a.leB b then a else b

/-- `earliest_start = final_subset["contract_start_date"].min()` (line 110);
`none` for an empty frame. -/
def earliest_start : List SiteRecord → Option Date
  | [] => none
  | r :: rs =>
    some (rs.foldl (fun acc x => minDate acc x.contract_start_date)
      r.contract_start_date)

/-- `avg_admin_fee = final_subset["client_admin_fee"].mean()` (line 111). -/
def avg_admin_fee (recs : List SiteRecord) : ℚ :=
  (recs.map (fun r => r.client_admin_fee)).sum / recs.length

/-- A row of `historical_data_AB_*.csv` as `new_business_ab_gas` reads it. -/
structure RateRow where
  date : Date
  regulated_rate : ℚ
  wholesale_rate : ℚ

/-- A row of the aggregated `monthly_rates` frame of `new_business_ab_gas`:
`year_month` is the period start (first of the month). -/
structure MonthlyRate where
  year_month : Date
  regulated_rate : ℚ
  wholesale_rate : ℚ

/-- The terminal outcomes of a calculation page short of a result. -/
inductive CalcError where
  | emptyRange
deriving DecidableEq, Repr

/-- Arithmetic mean of a list of rationals (pandas `mean` of a group). -/
def mean (xs : List ℚ) : ℚ := xs.sum / xs.length

/-- Steps 7-8 of `new_business_ab_gas.main` (lines 141-160): keep the rows
with `start_ts <= date <= end_ts`, stop with the empty-range warning if none
remain, group the survivors by calendar month (`dt.to_period("M")`), average
each rate column per group, key each output row by the period start and sort
ascending by month. -/
def aggregateMonthly (df : List RateRow) (start_ts end_ts : Date) :
    Except CalcError (List MonthlyRate) :=
  let df_filtered := df.filter (fun r => start_ts.leB r.date && r.date.leB end_ts)
  if df_filtered.isEmpty then .error .emptyRange
  else
    let keys := ((df_filtered.map (fun r => r.date.monthIdx)).dedup).insertionSort (· ≤ ·)
    .ok <| keys.map (fun k =>
      let grp := df_filtered.filter (fun r => r.date.monthIdx == k)
      { year_month := firstOfKey k
        regulated_rate := mean (grp.map (fun r => r.regulated_rate))
        wholesale_rate := mean (grp.map (fun r => r.wholesale_rate)) })

/-- A row of the historical-rates table `new_business_qc_gas` validates
against `{"date", "utility_rate", "wholesale_rate"}`. -/
structure QcRateRow where
  date : Date
  utility_rate : ℚ
  wholesale_rate : ℚ

/-- The scalar widget state `new_business_qc_gas.main` has collected when
Submit is pressed. -/
structure QcInputs where
  start_date_input : Date
  end_date_input : Date
  admin_fee : ℚ
  consumption : Nat → ℚ
  hedge : HedgeInput
  redistribute_option : Bool

/-- How a Python statement of the page can terminate short of a value. -/
inductive PyError where
  | nameError (missing : String)
  | stopped
deriving DecidableEq, Repr

/-- The local names `new_business_qc_gas.main` has bound by the time line
195 runs (widget results, the pre-submit frame and its bounds, the
post-submit timestamps and the re-read frame).  `required_cols` is not
among them: only `required_columns` (line 40) ever is. -/
def qc_main_local_names : List String :=
  ["csv_path", "df", "required_columns", "min_date", "max_date",
   "start_date_input", "end_date_input", "admin_fee", "MONTH_NAMES",
   "consumption", "use_hedge", "hedge_portion_percent",
   "hedge_start_date_input", "hedge_term_months", "hedge_fixed_rate",
   "redistribute_option", "show_monthly_chart", "show_monthly_table",
   "submitted", "start_ts", "end_ts", "hedge_start_ts", "hedge_end_ts",
   "df_rates"]

/-- Python name resolution inside `new_business_qc_gas.main`: a name not
bound in the function scope raises `NameError`. -/
def evalName (n : String) : Except PyError Unit :=
  if n ∈ qc_main_local_names then .ok () else .error (.nameError n)

/-- `required_columns` of `new_business_qc_gas.main` line 40. -/
def qc_required_columns : List String := ["date", "utility_rate", "wholesale_rate"]

/-- The pre-submit column validation (lines 40-43): `required_columns` is
bound on the spot, so only a genuinely missing column stops the page. -/
def qc_pre_submit_validation (df_columns : List String) : Except PyError Unit := do
  let _ ← evalName "required_columns"
  if qc_required_columns.all (fun c => df_columns.contains c) then .ok ()
  else .error .stopped

/-- The post-submit path of `new_business_qc_gas.main` (steps 8-14, lines
172-267): convert the dates, re-read the historical CSV (`none` models
`FileNotFoundError`, answered by `st.error` + `st.stop`), then run the
column validation of line 195, which evaluates the name `required_cols`
before anything else; the remaining steps filter, aggregate and cost the
months.  The result is the list of (utility cost, client cost) pairs. -/
def qc_post_submit (inp : QcInputs) (csv : Option (List QcRateRow)) :
    Except PyError (List (ℚ × ℚ)) :=
  let start_ts := inp.start_date_input
  let end_ts := inp.end_date_input
  match csv with
  | none => .error .stopped
  | some df_rates => do
    let _ ← evalName "required_cols"
    let df_filtered_rates :=
      df_rates.filter (fun r => start_ts.leB r.date && r.date.leB end_ts)
    if df_filtered_rates.isEmpty then .error .stopped
    else
      let keys := ((df_filtered_rates.map (fun r => r.date.monthIdx)).dedup).insertionSort (· ≤ ·)
      .ok <| keys.map (fun k =>
        let grp := df_filtered_rates.filter (fun r => r.date.monthIdx == k)
        let ym := firstOfKey k
        let utility_rate := mean (grp.map (fun r => r.utility_rate))
        let wholesale_rate := mean (grp.map (fun r => r.wholesale_rate))
        let usage_val := inp.consumption ym.m
        ((usage_val * utility_rate) / 100,
          qc_cost_client (monthIsHedged inp.hedge ym) usage_val wholesale_rate
            inp.admin_fee inp.hedge.hedge_portion_percent
            inp.hedge.hedge_fixed_rate))

/-- January-only consumption profile of the first aggregation test site. -/
def siteConsumptionA : Fin 12 → ℚ := fun i => if i.val = 0 then 100 else 0

/-- January-only consumption profile of the second aggregation test site. -/
def siteConsumptionB : Fin 12 → ℚ := fun i => if i.val = 0 then 150 else 0

/-- First concrete test site (admin fee 2, contract start 2021-01-01). -/
def siteRecA : SiteRecord :=
  ⟨"acme", "S1", "Alberta", "gas", ⟨2021, 1, 1⟩, 2, siteConsumptionA⟩

/-- Second concrete test site (admin fee 3, contract start 2020-06-15). -/
def siteRecB : SiteRecord :=
  ⟨"acme", "S2", "Alberta", "gas", ⟨2020, 6, 15⟩, 3, siteConsumptionB⟩

/-- A third site of another client, filtered away by the client match. -/
def siteRecC : SiteRecord :=
  ⟨"zenith", "Z1", "Alberta", "gas", ⟨2019, 1, 1⟩, 9, siteConsumptionA⟩

/-- The concrete site table of the aggregation witness. -/
def siteTable : List SiteRecord := [siteRecA, siteRecC, siteRecB]

instance (dt : Date) : Decidable dt.Valid := by
  unfold Date.Valid; infer_instance

instance (m : Date) (enabled : Bool) (s : Date) (t : Nat) :
    Decidable (in_hedge_window m enabled s t) := by
  unfold in_hedge_window; infer_instance

/-! Helper lemmas about dates. -/

/-- `ltB` is irreflexive. -/
theorem Date.ltB_irrefl (a : Date) : a.ltB a = false := by
  simp [Date.ltB]

/-- If `a ≤ b` then not `b < a` (dates compare lexicographically). -/
theorem Date.leB_asymm {a b : Date} (hab : a.leB b = true) : b.ltB a = false := by
  simp only [Date.leB, Bool.or_eq_true, Bool.and_eq_true, decide_eq_true_eq] at hab
  simp only [Date.ltB, Bool.or_eq_false_iff, Bool.and_eq_false_iff,
    decide_eq_false_iff_not, decide_eq_true_eq]
  omega

/-- Adding zero months to a well-formed date returns the date itself. -/
theorem Date.addMonths_zero {a : Date} (ha : a.Valid) : a.addMonths 0 = a := by
  obtain ⟨h1, h2, h3, h4⟩ := ha
  simp only [Date.addMonths, Date.monthIdx, Nat.add_zero]
  have hy : (a.y * 12 + (a.m - 1)) / 12 = a.y := by omega
  have hm : (a.y * 12 + (a.m - 1)) % 12 + 1 = a.m := by omega
  have hd : min a.d (daysInMonth ((a.y * 12 + (a.m - 1)) / 12)
      ((a.y * 12 + (a.m - 1)) % 12 + 1)) = a.d := by
    rw [hy, hm]; omega
  rw [hy, hm] at hd ⊢
  rw [hd]

/-- C2: a month is treated as hedged exactly when the hedge is enabled and
the month's first-of-month date lies in the half-open calendar-month window
`[start, start + term_months)`; the boundary date `start + term_months`
itself is never hedged, and a hedge of term zero hedges no month at all. -/
theorem hedge_window_halfopen (enabled : Bool) (s : Date) (t : Nat) (p r : ℚ)
    (m : Date) (hs : s.Valid) :
    (monthIsHedged ⟨enabled, some s, t, p, r⟩ m = true ↔
      in_hedge_window m enabled s t) ∧
    monthIsHedged ⟨enabled, some s, 0, p, r⟩ m = false ∧
    monthIsHedged ⟨enabled, some s, t, p, r⟩ (s.addMonths t) = false := by
  refine ⟨?_, ?_, ?_⟩
  · cases enabled with
    | false => simp [monthIsHedged, in_hedge_window]
    | true =>
      simp [monthIsHedged, hedge_start_ts, hedge_end_ts, in_hedge_window,
        Bool.and_eq_true]
  · cases enabled with
    | false => simp [monthIsHedged]
    | true =>
      simp only [monthIsHedged, hedge_start_ts, hedge_end_ts, if_true,
        Option.map, Bool.true_and]
      rw [Date.addMonths_zero hs]
      cases hle : s.leB m with
      | false => simp
      | true => simp [Date.leB_asymm hle]
  · cases enabled with
    | false => simp [monthIsHedged]
    | true =>
      simp only [monthIsHedged, hedge_start_ts, hedge_end_ts, if_true,
        Option.map, Bool.true_and]
      simp [Date.ltB_irrefl]

/-- C2 witness: with a hedge starting 2023-03-01 for 3 months, the month
2023-04-01 is hedged. -/
theorem hedge_window_halfopen_witness :
    monthIsHedged ⟨true, some ⟨2023, 3, 1⟩, 3, 30, 2⟩ ⟨2023, 4, 1⟩ = true :=
  (hedge_window_halfopen true ⟨2023, 3, 1⟩ 3 30 2 ⟨2023, 4, 1⟩
    (by decide)).1.mpr (by decide)

/-- C8: with the hedge checkbox off no month is ever treated as hedged and
every month's client cost is `consumption * (wholesale + admin fee)`,
whatever stale values the other hedge fields hold. -/
theorem hedge_disabled_fully_unhedged (sd : Option Date) (t : Nat)
    (p r fee : ℚ) (m : Date) (c w : ℚ) :
    monthIsHedged ⟨false, sd, t, p, r⟩ m = false ∧
    abGas_cost_client ⟨false, sd, t, p, r⟩ fee m c w = c * (w + fee) := by
  have hh : monthIsHedged ⟨false, sd, t, p, r⟩ m = false := by
    simp [monthIsHedged]
  exact ⟨hh, by simp [abGas_cost_client, hh]⟩

/-- C1: on the Alberta and Ontario gas pages the admin fee IS added to the
hedged portion: with portion 50 percent, fixed rate 2, wholesale 3, admin
fee 1 and consumption 100 the hedged month costs 350 on those pages, while
the no-fee-on-hedge rule (implemented by `canadian_new_business`) yields
300. -/
theorem abGas_admin_fee_added_to_hedge :
    monthIsHedged ⟨true, some ⟨2023, 1, 1⟩, 1, 50, 2⟩ ⟨2023, 1, 1⟩ = true ∧
    abGas_cost_client ⟨true, some ⟨2023, 1, 1⟩, 1, 50, 2⟩ 1 ⟨2023, 1, 1⟩ 100 3 = 350 ∧
    onGas_cost_client ⟨true, some ⟨2023, 1, 1⟩, 1, 50, 2⟩ 1 ⟨2023, 1, 1⟩ 100 3 = 350 ∧
    canadian_cost_client true 100 3 1 50 2 = 300 := by
  have hh : monthIsHedged ⟨true, some ⟨2023, 1, 1⟩, 1, 50, 2⟩ ⟨2023, 1, 1⟩
      = true := by decide
  refine ⟨hh, ?_, ?_, ?_⟩ <;>
    norm_num [abGas_cost_client, onGas_cost_client, canadian_cost_client, hh]

/-- C3: in the hedge window with portion `p`, the client cost of the
`canadian_new_business` page is exactly
`p% * c * fixed + (1 - p%) * c * (wholesale + fee)`, the Quebec page gives
the same blend uniformly converted from cents to dollars, and the blend
reduces to the fully-unhedged cost at `p = 0` and to the pure fixed-rate
cost at `p = 100`. -/
theorem partial_hedge_additivity (p c w f r : ℚ) (h0 : 0 ≤ p)
    (h100 : p ≤ 100) :
    canadian_cost_client true c w f p r
        = (p / 100) * c * r + (1 - p / 100) * c * (w + f) ∧
    qc_cost_client true c w f p r
        = ((p / 100) * c * r + (1 - p / 100) * c * (w + f)) / 100 ∧
    canadian_cost_client true c w f 0 r = canadian_cost_client false c w f 0 r ∧
    canadian_cost_client true c w f 100 r = c * r ∧
    qc_cost_client true c w f 0 r = qc_cost_client false c w f 0 r ∧
    qc_cost_client true c w f 100 r = c * (r / 100) := by
  refine ⟨?_, ?_, ?_, ?_, ?_, ?_⟩ <;> simp [canadian_cost_client, qc_cost_client] <;> ring

/-- C3 witness: the blend at portion 30, consumption 100, wholesale 3,
fee 1, fixed rate 2. -/
theorem partial_hedge_additivity_witness :
    canadian_cost_client true 100 3 1 30 2
      = (30 / 100 : ℚ) * 100 * 2 + (1 - 30 / 100) * 100 * (3 + 1) :=
  (partial_hedge_additivity 30 100 3 1 2 (by norm_num) (by norm_num)).1

/-- C6 counterexample: on `canadian_new_business`, an Ontario-gas
calculation whose zone choice was never supplied (empty session state, no
radio prompt because the hedge section is active) does NOT fail: it
defaults to EGD and returns that column (value 3 of the concrete row). -/
theorem cnb_missing_zone_defaults_to_egd :
    cnb_utility_selected "Ontario" none true "Union South"
      ⟨⟨2023, 1, 1⟩, 1, 2, 3, 4⟩ = .ok 3 := by
  rfl

/-- C6 (amended): `current_client` fails on a missing Ontario zone choice
and honours the explicit choice with no default; `canadian_new_business`
instead silently defaults a missing session-state choice to EGD (and lets
the radio prompt decide only when the hedge is off). -/
theorem zone_selection_per_page (row : CCRateRow) (c : Option String)
    (rc : String) :
    currentClient_utility_selected "Ontario" none row
        = .error "Ontario gas requires selecting EGD or Union South." ∧
    currentClient_utility_selected "Ontario" (some "EGD") row
        = .ok row.local_utility_rate_egd ∧
    currentClient_utility_selected "Ontario" (some "Union South") row
        = .ok row.local_utility_rate_usouth ∧
    cnb_utility_selected "Ontario" none true rc row
        = .ok row.local_utility_rate_egd ∧
    cnb_utility_selected "Ontario" (some "Union South") true rc row
        = .ok row.local_utility_rate_usouth ∧
    cnb_utility_selected "Ontario" c false "EGD" row
        = .ok row.local_utility_rate_egd := by
  refine ⟨?_, ?_, ?_, ?_, ?_, ?_⟩ <;>
    simp [currentClient_utility_selected, cnb_utility_selected]

/-- C9: the post-submit path of the Quebec gas page evaluates the undefined
name `required_cols` right after re-reading the CSV, so every submission
errors before any cost is computed (a missing CSV merely stops earlier) and
no invocation returns a cost list; the pre-submit validation, which binds
and uses `required_columns`, succeeds on the expected columns. -/
theorem qc_post_submit_never_produces_costs (inp : QcInputs)
    (rows : List QcRateRow) :
    qc_post_submit inp (some rows) = .error (.nameError "required_cols") ∧
    qc_post_submit inp none = .error .stopped ∧
    (∀ (csv : Option (List QcRateRow)) (out : List (ℚ × ℚ)),
      qc_post_submit inp csv ≠ .ok out) ∧
    qc_pre_submit_validation ["date", "utility_rate", "wholesale_rate"]
        = .ok () := by
  have hsome : ∀ rs : List QcRateRow,
      qc_post_submit inp (some rs) = .error (.nameError "required_cols") :=
    fun rs => rfl
  refine ⟨hsome rows, rfl, ?_, rfl⟩
  intro csv out
  cases csv with
  | none => simp [qc_post_submit]
  | some rs => simp [hsome rs]

/-- C5: for a minor-currency jurisdiction/commodity pair, `cost_in_cad`
applies the one divisor 100 to every cost it produces — the utility and the
client stream of a row alike — and therefore scaling all input rates
(utility, wholesale, admin fee, hedge fixed rate) by a common factor `k`
scales both the utility cost and the client cost of the row by exactly `k`. -/
theorem minor_unit_scaling (pr co : String) (hmu : minorUnit pr co = true)
    (k : ℚ) (h : HedgeInput) (fee : ℚ) (m : Date) (usage w u : ℚ) :
    (∀ uv rv : ℚ, cost_in_cad uv rv pr co = some (uv * (rv / 100))) ∧
    currentClient_month_costs pr co (scaleHedgeRate k h) (k * fee) m usage
        (k * w) (k * u)
      = (currentClient_month_costs pr co h fee m usage w u).map
          (fun pc => (k * pc.1, k * pc.2)) := by
  have hmu2 : (pr = "Alberta" ∧ co = "electricity") ∨
      (pr = "Ontario" ∧ co = "gas") := by
    simp only [minorUnit, Bool.or_eq_true, Bool.and_eq_true, beq_iff_eq] at hmu
    exact hmu
  have hcc : ∀ uv rv : ℚ, cost_in_cad uv rv pr co = some (uv * (rv / 100)) := by
    intro uv rv
    rcases hmu2 with ⟨h1, h2⟩ | ⟨h1, h2⟩ <;> subst h1 <;> subst h2 <;>
      simp [cost_in_cad]
  refine ⟨hcc, ?_⟩
  have hhm : monthIsHedged (scaleHedgeRate k h) m = monthIsHedged h m := rfl
  have hp : (scaleHedgeRate k h).hedge_portion_percent
      = h.hedge_portion_percent := rfl
  have hf : (scaleHedgeRate k h).hedge_fixed_rate = k * h.hedge_fixed_rate := rfl
  cases hM : monthIsHedged h m with
  | false =>
    simp only [currentClient_month_costs, hcc, hhm, hp, hf, hM,
      Bool.false_eq_true, if_false, bind, Option.bind, Option.map, pure,
      Option.some.injEq, Prod.mk.injEq]
    exact ⟨by ring, by ring⟩
  | true =>
    simp only [currentClient_month_costs, hcc, hhm, hp, hf, hM, if_true, bind,
      Option.bind, Option.map, pure, Option.some.injEq, Prod.mk.injEq]
    exact ⟨by ring, by ring⟩

/-- C5 witness: the scaling identity at factor 2 on the Ontario gas pair
with a concrete hedged row. -/
theorem minor_unit_scaling_witness :
    currentClient_month_costs "Ontario" "gas"
        (scaleHedgeRate 2 ⟨true, some ⟨2023, 1, 1⟩, 1, 50, 4⟩) (2 * 1)
        ⟨2023, 1, 1⟩ 10 (2 * 3) (2 * 5)
      = (currentClient_month_costs "Ontario" "gas"
          ⟨true, some ⟨2023, 1, 1⟩, 1, 50, 4⟩ 1 ⟨2023, 1, 1⟩ 10 3 5).map
          (fun pc => (2 * pc.1, 2 * pc.2)) :=
  (minor_unit_scaling "Ontario" "gas" (by decide) 2
    ⟨true, some ⟨2023, 1, 1⟩, 1, 50, 4⟩ 1 ⟨2023, 1, 1⟩ 10 3 5).2

/-- `leB` is reflexive. -/
theorem Date.leB_refl (a : Date) : a.leB a = true := by
  simp [Date.leB]

/-- `leB` is transitive. -/
theorem Date.leB_trans {a b c : Date} (hab : a.leB b = true)
    (hbc : b.leB c = true) : a.leB c = true := by
  simp only [Date.leB, Bool.or_eq_true, Bool.and_eq_true,
    decide_eq_true_eq] at hab hbc ⊢
  omega

/-- `leB` is total. -/
theorem Date.leB_of_not_leB {a b : Date} (h : a.leB b = false) :
    b.leB a = true := by
  simp only [Date.leB, Bool.or_eq_false_iff, Bool.and_eq_false_iff,
    decide_eq_false_iff_not, decide_eq_true_eq] at h
  simp only [Date.leB, Bool.or_eq_true, Bool.and_eq_true, decide_eq_true_eq]
  omega

/-- The minimum of two dates is below the left argument. -/
theorem minDate_leB_left (a b : Date) : (minDate a b).leB a = true := by
  unfold minDate
  cases hab : a.leB b with
  | true => simp [Date.leB_refl]
  | false => simp [Date.leB_of_not_leB hab]

/-- The minimum of two dates is below the right argument. -/
theorem minDate_leB_right (a b : Date) : (minDate a b).leB b = true := by
  unfold minDate
  cases hab : a.leB b with
  | true => simp [hab]
  | false => simp [hab, Date.leB_refl]

/-- A left fold of `minDate` lands on its seed or a list element and is a
lower bound of both. -/
theorem foldl_minDate_spec (d : Date) (l : List Date) :
    (l.foldl minDate d = d ∨ l.foldl minDate d ∈ l) ∧
    (l.foldl minDate d).leB d = true ∧
    ∀ x ∈ l, (l.foldl minDate d).leB x = true := by
  induction l generalizing d with
  | nil => simp [Date.leB_refl]
  | cons a as ih =>
    obtain ⟨hmem, hle, hall⟩ := ih (minDate d a)
    have hfold : (a :: as).foldl minDate d = as.foldl minDate (minDate d a) := rfl
    refine ⟨?_, ?_, ?_⟩
    · rw [hfold]
      rcases hmem with hm | hm
      · rw [hm]
        unfold minDate
        cases hab : d.leB a with
        | true => left; simp
        | false => right; simp
      · right; exact List.mem_cons_of_mem _ hm
    · rw [hfold]
      exact Date.leB_trans hle (minDate_leB_left d a)
    · intro x hx
      rw [hfold]
      rcases List.mem_cons.mp hx with hxa | hxas
      · subst hxa
        exact Date.leB_trans hle (minDate_leB_right d x)
      · exact hall x hxas

/-- C7: over the site records matching one client, province and commodity,
the aggregate mode sums each monthly consumption column, takes the earliest
(minimum) contract start date, and takes the arithmetic mean of the admin
fees; every aggregated record indeed carries the selected client, province
and commodity. -/
theorem portfolio_aggregation (client_df : List SiteRecord)
    (cl pr co : String) (r : SiteRecord) (rs : List SiteRecord)
    (hsub : final_subset client_df cl pr co = r :: rs) :
    (∀ i : Fin 12, usage_sums (r :: rs) i
        = r.month_cols i + (rs.map (fun x => x.month_cols i)).sum) ∧
    (∃ dmin : Date, earliest_start (r :: rs) = some dmin ∧
      (∀ x ∈ r :: rs, dmin.leB x.contract_start_date = true) ∧
      ∃ x ∈ r :: rs, x.contract_start_date = dmin) ∧
    avg_admin_fee (r :: rs) * ((r :: rs).length : ℚ)
        = ((r :: rs).map (fun x => x.client_admin_fee)).sum ∧
    ∀ x ∈ r :: rs,
      x.client_name = cl ∧ x.province = pr ∧ x.commodity = co ∧
        x ∈ client_df := by
  refine ⟨?_, ?_, ?_, ?_⟩
  · intro i
    simp [usage_sums]
  · set dmin := rs.foldl (fun acc x => minDate acc x.contract_start_date)
      r.contract_start_date with hdmin
    have hconv : dmin
        = (rs.map (fun x => x.contract_start_date)).foldl minDate
            r.contract_start_date := by
      rw [hdmin, List.foldl_map]
    obtain ⟨hmem, hle, hall⟩ :=
      foldl_minDate_spec r.contract_start_date
        (rs.map (fun x => x.contract_start_date))
    refine ⟨dmin, rfl, ?_, ?_⟩
    · intro x hx
      rcases List.mem_cons.mp hx with hxr | hxrs
      · subst hxr; rw [hconv]; exact hle
      · rw [hconv]
        exact hall x.contract_start_date
          (List.mem_map.mpr ⟨x, hxrs, rfl⟩)
    · rcases hmem with hm | hm
      · exact ⟨r, List.mem_cons_self r rs, by rw [hconv]; exact hm.symm⟩
      · obtain ⟨x, hxrs, hxd⟩ := List.mem_map.mp hm
        exact ⟨x, List.mem_cons_of_mem _ hxrs, by rw [hconv]; exact hxd⟩
  · have hlen : (((r :: rs).length : ℚ)) ≠ 0 := by
      simp only [List.length_cons]
      exact_mod_cast Nat.succ_ne_zero rs.length
    unfold avg_admin_fee
    rw [div_mul_cancel₀ _ hlen]
  · intro x hx
    rw [← hsub] at hx
    simp only [final_subset, List.mem_filter, beq_iff_eq] at hx
    exact ⟨hx.1.1.2, hx.1.2, hx.2, hx.1.1.1⟩

/-- C7 witness: aggregating the two matching concrete sites (admin fees 2
and 3), the mean admin fee times the record count equals the fee sum. -/
theorem portfolio_aggregation_witness :
    avg_admin_fee (siteRecA :: [siteRecB])
        * ((siteRecA :: [siteRecB]).length : ℚ)
      = ((siteRecA :: [siteRecB]).map (fun x => x.client_admin_fee)).sum :=
  (portfolio_aggregation siteTable "acme" "Alberta" "gas" siteRecA [siteRecB]
    rfl).2.2.1

/-- The month index of the first day of a month round-trips. -/
theorem monthIdx_firstOfKey (k : Nat) : (firstOfKey k).monthIdx = k := by
  simp only [firstOfKey, Date.monthIdx]
  omega

/-- First-of-month dates are ordered as their month indices. -/
theorem firstOfKey_ltB {k1 k2 : Nat} (h : k1 < k2) :
    (firstOfKey k1).ltB (firstOfKey k2) = true := by
  simp only [firstOfKey, Date.ltB, Bool.or_eq_true, Bool.and_eq_true,
    decide_eq_true_eq]
  omega

/-- A weakly sorted duplicate-free list of naturals is strictly sorted. -/
theorem pairwise_lt_of_sorted_nodup :
    ∀ (l : List Nat), List.Sorted (· ≤ ·) l → l.Nodup →
      List.Pairwise (· < ·) l := by
  intro l
  induction l with
  | nil => intro _ _; exact List.Pairwise.nil
  | cons a t ih =>
    intro hs hn
    rw [List.sorted_cons] at hs
    obtain ⟨h2, hn2⟩ := List.pairwise_cons.mp hn
    exact List.pairwise_cons.mpr
      ⟨fun b hb => lt_of_le_of_ne (hs.1 b hb) (h2 b hb), ih hs.2 hn2⟩

/-- With no surviving row the aggregator stops with the empty-range error. -/
theorem aggregateMonthly_isEmpty (df : List RateRow) (s e : Date)
    (he : (df.filter (fun r => s.leB r.date && r.date.leB e)).isEmpty = true) :
    aggregateMonthly df s e = .error .emptyRange := by
  simp [aggregateMonthly, he]

/-- With at least one surviving row the aggregator returns one output row
per distinct surviving month, keyed by the period start, averaging each rate
column over the rows of that month, in ascending key order. -/
theorem aggregateMonthly_ok (df : List RateRow) (s e : Date)
    (hne : (df.filter (fun r => s.leB r.date && r.date.leB e)).isEmpty = false) :
    aggregateMonthly df s e = .ok
      ((((df.filter (fun r => s.leB r.date && r.date.leB e)).map
            (fun r => r.date.monthIdx)).dedup.insertionSort (· ≤ ·)).map
        (fun k =>
          { year_month := firstOfKey k
            regulated_rate := mean
              (((df.filter (fun r => s.leB r.date && r.date.leB e)).filter
                  (fun r => r.date.monthIdx == k)).map
                (fun r => r.regulated_rate))
            wholesale_rate := mean
              (((df.filter (fun r => s.leB r.date && r.date.leB e)).filter
                  (fun r => r.date.monthIdx == k)).map
                (fun r => r.wholesale_rate)) })) := by
  simp only [aggregateMonthly, hne, Bool.false_eq_true, if_false]

/-- C4: the rate aggregator keeps exactly the rows with
`start <= date <= end` (both inclusive) and fails with the empty-range
error exactly when none survive; on success the output is sorted strictly
ascending by month, every output row is keyed by the first calendar day of
its month and carries the arithmetic mean of each rate column over the
surviving rows of that month (a nonempty group), and a month appears in the
output exactly when some surviving row falls in it. -/
theorem aggregator_contract (df : List RateRow) (s e : Date) :
    (aggregateMonthly df s e = .error .emptyRange ↔
      ∀ r ∈ df, ¬(s.leB r.date = true ∧ r.date.leB e = true)) ∧
    (∀ out, aggregateMonthly df s e = .ok out →
      List.Pairwise (fun a b : MonthlyRate =>
        a.year_month.ltB b.year_month = true) out ∧
      (∀ mr ∈ out,
        mr.year_month.d = 1 ∧
        ((df.filter (fun r => s.leB r.date && r.date.leB e)).filter
            (fun r => r.date.monthIdx == mr.year_month.monthIdx)) ≠ [] ∧
        mr.regulated_rate = mean
          (((df.filter (fun r => s.leB r.date && r.date.leB e)).filter
              (fun r => r.date.monthIdx == mr.year_month.monthIdx)).map
            (fun r => r.regulated_rate)) ∧
        mr.wholesale_rate = mean
          (((df.filter (fun r => s.leB r.date && r.date.leB e)).filter
              (fun r => r.date.monthIdx == mr.year_month.monthIdx)).map
            (fun r => r.wholesale_rate))) ∧
      (∀ k0 : Nat,
        (∃ mr ∈ out, mr.year_month.monthIdx = k0) ↔
        ∃ r ∈ df, (s.leB r.date = true ∧ r.date.leB e = true) ∧
          r.date.monthIdx = k0)) := by
  have hiff : (∀ r ∈ df, ¬(s.leB r.date = true ∧ r.date.leB e = true)) ↔
      df.filter (fun r => s.leB r.date && r.date.leB e) = [] := by
    rw [List.filter_eq_nil_iff]
    simp only [Bool.and_eq_true]
  constructor
  · cases hE : (df.filter (fun r => s.leB r.date && r.date.leB e)).isEmpty with
    | true =>
      rw [aggregateMonthly_isEmpty df s e hE]
      simp only [true_iff]
      exact hiff.mpr (List.isEmpty_iff.mp hE)
    | false =>
      rw [aggregateMonthly_ok df s e hE]
      constructor
      · intro hcon; exact absurd hcon (by simp)
      · intro hall
        rw [hiff, ← List.isEmpty_iff] at hall
        rw [hall] at hE
        exact absurd hE (by simp)
  · intro out hout
    cases hE : (df.filter (fun r => s.leB r.date && r.date.leB e)).isEmpty with
    | true =>
      rw [aggregateMonthly_isEmpty df s e hE] at hout
      exact absurd hout (by simp)
    | false =>
      rw [aggregateMonthly_ok df s e hE] at hout
      have hout2 := Except.ok.inj hout
      subst hout2
      have hkeys_mem : ∀ k : Nat,
          k ∈ (((df.filter (fun r => s.leB r.date && r.date.leB e)).map
              (fun r => r.date.monthIdx)).dedup.insertionSort (· ≤ ·)) ↔
          k ∈ (df.filter (fun r => s.leB r.date && r.date.leB e)).map
              (fun r => r.date.monthIdx) := by
        intro k
        exact (List.perm_insertionSort _ _).mem_iff.trans List.mem_dedup
      have hsorted : List.Sorted (· ≤ ·)
          (((df.filter (fun r => s.leB r.date && r.date.leB e)).map
              (fun r => r.date.monthIdx)).dedup.insertionSort (· ≤ ·)) :=
        List.sorted_insertionSort _ _
      have hnodup : (((df.filter (fun r => s.leB r.date && r.date.leB e)).map
          (fun r => r.date.monthIdx)).dedup.insertionSort (· ≤ ·)).Nodup :=
        (List.perm_insertionSort _ _).nodup_iff.mpr (List.nodup_dedup _)
      have hklt := pairwise_lt_of_sorted_nodup _ hsorted hnodup
      refine ⟨?_, ?_, ?_⟩
      · rw [List.pairwise_map]
        exact hklt.imp (fun hab => firstOfKey_ltB hab)
      · intro mr hmr
        obtain ⟨k, hk, rfl⟩ := List.mem_map.mp hmr
        have hkm : k ∈ (df.filter (fun r => s.leB r.date && r.date.leB e)).map
            (fun r => r.date.monthIdx) := (hkeys_mem k).mp hk
        obtain ⟨r, hrF, hridx⟩ := List.mem_map.mp hkm
        refine ⟨rfl, ?_, ?_, ?_⟩
        · simp only [monthIdx_firstOfKey]
          exact List.ne_nil_of_mem
            (List.mem_filter.mpr ⟨hrF, by simp [hridx]⟩)
        · simp only [monthIdx_firstOfKey]
        · simp only [monthIdx_firstOfKey]
      · intro k0
        constructor
        · rintro ⟨mr, hmr, hidx⟩
          obtain ⟨k, hk, rfl⟩ := List.mem_map.mp hmr
          rw [monthIdx_firstOfKey] at hidx
          subst hidx
          obtain ⟨r, hrF, hridx⟩ :=
            List.mem_map.mp ((hkeys_mem k).mp hk)
          have hrdf := List.mem_filter.mp hrF
          exact ⟨r, hrdf.1, by
            have := hrdf.2
            simp only [Bool.and_eq_true] at this
            exact this, hridx⟩
        · rintro ⟨r, hr, hrw, hridx⟩
          have hrF : r ∈ df.filter (fun r => s.leB r.date && r.date.leB e) :=
            List.mem_filter.mpr ⟨hr, by simp [hrw.1, hrw.2]⟩
          have hkm : r.date.monthIdx ∈
              ((df.filter (fun r => s.leB r.date && r.date.leB e)).map
                (fun r => r.date.monthIdx)) :=
            List.mem_map.mpr ⟨r, hrF, rfl⟩
          have hkk := (hkeys_mem r.date.monthIdx).mpr hkm
          refine ⟨_, List.mem_map.mpr ⟨r.date.monthIdx, hkk, rfl⟩, ?_⟩
          rw [monthIdx_firstOfKey]
          exact hridx

/-- Every month has at least 28 days. -/
theorem daysInMonth_ge (y m : Nat) : 28 ≤ daysInMonth y m := by
  unfold daysInMonth
  split
  · split <;> omega
  · split <;> omega

/-- C10 counterexample: an enabled hedge starting mid-month (2023-03-15)
with term 0 months has its end date `start + 0 months = 2023-03-15`, yet the
month containing that end date (first day 2023-03-01) is NOT hedged. -/
theorem hedge_end_month_unhedged_at_term_zero :
    Date.addMonths ⟨2023, 3, 15⟩ 0 = ⟨2023, 3, 15⟩ ∧
    monthIsHedged ⟨true, some ⟨2023, 3, 15⟩, 0, 50, 2⟩ ⟨2023, 3, 1⟩ = false := by
  constructor
  · rfl
  · decide

/-- C10 (amended): for an ENABLED hedge with term at least one month whose
start is not the first of its month, membership is decided on each month's
first day, so the month containing the start is entirely unhedged, the
first hedged month is the earliest month whose first day is on or after the
start (its first day is the first day of the following month), and the
month containing the end date `start + term_months` is entirely hedged. -/
theorem hedge_midmonth_month_boundaries (s : Date) (t : Nat) (p r : ℚ)
    (hs : s.Valid) (hd : 2 ≤ s.d) (ht : 1 ≤ t) :
    monthIsHedged ⟨true, some s, t, p, r⟩ ⟨s.y, s.m, 1⟩ = false ∧
    monthIsHedged ⟨true, some s, t, p, r⟩ (firstOfKey (s.monthIdx + 1)) = true ∧
    (∀ f : Date, f.Valid → f.d = 1 →
      f.ltB (firstOfKey (s.monthIdx + 1)) = true →
      monthIsHedged ⟨true, some s, t, p, r⟩ f = false) ∧
    (∀ f : Date, f.Valid → f.d = 1 → s.leB f = true →
      (firstOfKey (s.monthIdx + 1)).leB f = true) ∧
    monthIsHedged ⟨true, some s, t, p, r⟩
      ⟨(s.addMonths t).y, (s.addMonths t).m, 1⟩ = true := by
  obtain ⟨hm1, hm2, hd1, hd2⟩ := hs
  have hred : ∀ m : Date, monthIsHedged ⟨true, some s, t, p, r⟩ m
      = (s.leB m && m.ltB (s.addMonths t)) := fun m => rfl
  have hdimE : 28 ≤ daysInMonth ((s.y * 12 + (s.m - 1) + t) / 12)
      ((s.y * 12 + (s.m - 1) + t) % 12 + 1) := daysInMonth_ge _ _
  have hy : (s.addMonths t).y = (s.y * 12 + (s.m - 1) + t) / 12 := rfl
  have hmm : (s.addMonths t).m = (s.y * 12 + (s.m - 1) + t) % 12 + 1 := rfl
  have hEd : 2 ≤ (s.addMonths t).d := by
    simp only [Date.addMonths, Date.monthIdx]
    exact le_min hd (by omega)
  refine ⟨?_, ?_, ?_, ?_, ?_⟩
  · rw [hred]
    simp only [Date.leB, Date.ltB, Date.addMonths, Date.monthIdx, firstOfKey,
      Bool.and_eq_false_iff, Bool.or_eq_false_iff, decide_eq_false_iff_not,
      decide_eq_true_eq, Bool.or_eq_true, Bool.and_eq_true]
    omega
  · rw [hred]
    simp only [Date.leB, Date.ltB, firstOfKey, Date.monthIdx, hy, hmm,
      Bool.and_eq_true, Bool.or_eq_true, decide_eq_true_eq]
    omega
  · intro f hfv hfd hlt
    obtain ⟨hf1, hf2, hf3, hf4⟩ := hfv
    rw [hred]
    simp only [Date.ltB, firstOfKey, Date.monthIdx, Bool.or_eq_true,
      Bool.and_eq_true, decide_eq_true_eq] at hlt
    simp only [Date.leB, Date.ltB, Date.addMonths, Date.monthIdx,
      Bool.and_eq_false_iff, Bool.or_eq_false_iff, decide_eq_false_iff_not,
      decide_eq_true_eq, Bool.or_eq_true, Bool.and_eq_true]
    omega
  · intro f hfv hfd hsf
    obtain ⟨hf1, hf2, hf3, hf4⟩ := hfv
    simp only [Date.leB, Bool.or_eq_true, Bool.and_eq_true,
      decide_eq_true_eq] at hsf
    simp only [Date.leB, firstOfKey, Date.monthIdx, Bool.or_eq_true,
      Bool.and_eq_true, decide_eq_true_eq]
    omega
  · rw [hred]
    have h1 : s.leB ⟨(s.addMonths t).y, (s.addMonths t).m, 1⟩ = true := by
      simp only [Date.leB, hy, hmm, Bool.or_eq_true, Bool.and_eq_true,
        decide_eq_true_eq]
      omega
    have h2 : Date.ltB ⟨(s.addMonths t).y, (s.addMonths t).m, 1⟩
        (s.addMonths t) = true := by
      have h1d : (1 : Nat) < (s.addMonths t).d := by omega
      simp [Date.ltB, h1d]
    rw [h1, h2]
    rfl

/-- C10 witness: hedge start 2023-03-15, term 3 months: the first day of
the start month is unhedged. -/
theorem hedge_midmonth_month_boundaries_witness :
    monthIsHedged ⟨true, some ⟨2023, 3, 15⟩, 3, 30, 2⟩ ⟨2023, 3, 1⟩ = false :=
  (hedge_midmonth_month_boundaries ⟨2023, 3, 15⟩ 3 30 2 (by decide) (by decide)
    (by decide)).1
